import Mathlib

/-!
Verification of the DBAgent repository: a shallow embedding of the SQL
read-only policy guard, the deadline-bounded execution engine, the agent
loop controller, the result canonicalizer and comparator, and the
experiment runner verdict logic, together with proofs of the specified
properties.
-/

namespace DBAgent

/-! ## Character classes

Python's default `str.strip` and the regex class of whitespace are modelled
on the ASCII fragment; the same predicate is used uniformly on both the
code side and the spec side, so none of the claims depends on the exact
character set. -/

/-- Whitespace characters (ASCII fragment of Python whitespace). -/
def isSpaceChar (c : Char) : Bool :=
  c = ' ' || c = '\t' || c = '\n' || c = '\r' || c = '\x0b' || c = '\x0c'

/-- Word characters for the regex word boundaries (ASCII fragment of
Python word characters: alphanumerics and underscore). -/
def isWordChar (c : Char) : Bool := c.isAlphanum || c = '_'

/-! ## Sanitizer: `_strip_comments_and_literals`

The three `re.sub` passes of the source are translated one by one.  The
block-comment pattern is lazy, so a block comment runs to the nearest
closing marker.  The line-comment pattern ends in a group whose first
alternative is empty and therefore always matches immediately, so the
whole pattern matches exactly the two dashes.  The literal pattern
greedily consumes units that are a non-quote character or a doubled
quote, then a closing quote, backtracking to the first available close
when the greedy continuation fails. -/

/-- Scans for the closing star-slash of a block comment; returns the
suffix after it (the lazy dot-star stops at the first close). -/
def findClose : List Char → Option (List Char)
  | '*' :: '/' :: rest => some rest
  | _ :: rest => findClose rest
  | [] => none

/-- Fueled leftmost replacement of block comments by one space.  The fuel
is always at least the input length, so the zero-fuel branch is
unreachable. -/
def subBlockF : Nat → List Char → List Char
  | 0, cs => cs
  | _ + 1, [] => []
  | f + 1, '/' :: '*' :: rest =>
      match findClose rest with
      | some r => ' ' :: subBlockF f r
      | none => '/' :: subBlockF f ('*' :: rest)
  | f + 1, c :: rest => c :: subBlockF f rest

/-- Replacement of block comments by one space. -/
def subBlockComments (cs : List Char) : List Char := subBlockF cs.length cs

/-- Replacement for the line-comment pattern: the empty alternative in the
trailing group always matches, so only the dash-dash marker itself is
replaced by a space and the comment body survives. -/
def subLineComments : List Char → List Char
  | '-' :: '-' :: rest => ' ' :: subLineComments rest
  | c :: rest => c :: subLineComments rest
  | [] => []

/-- After an opening quote, consume the greedy match of the literal body
and return the suffix after the closing quote, or `none` when the
remainder holds no quote at all. -/
def litTail : List Char → Option (List Char)
  | [] => none
  | '\'' :: '\'' :: rest =>
      match litTail rest with
      | some r => some r
      | none => some ('\'' :: rest)
  | '\'' :: rest => some rest
  | _ :: rest => litTail rest

/-- Fueled leftmost replacement of quoted literals by an empty literal.
The fuel is always at least the input length, so the zero-fuel branch is
unreachable. -/
def subLiteralsF : Nat → List Char → List Char
  | 0, cs => cs
  | _ + 1, [] => []
  | f + 1, '\'' :: rest =>
      match litTail rest with
      | some r => '\'' :: '\'' :: subLiteralsF f r
      | none => '\'' :: subLiteralsF f rest
  | f + 1, c :: rest => c :: subLiteralsF f rest

/-- Replacement of quoted literals by an empty literal. -/
def subLiterals (cs : List Char) : List Char := subLiteralsF cs.length cs

/-- Embedding of `_strip_comments_and_literals`: the three substitution
passes in source order. -/
def _strip_comments_and_literals (cs : List Char) : List Char :=
  subLiterals (subLineComments (subBlockComments cs))

/-! ## Classifier: `_is_read_only` -/

/-- Python `str.strip` with a character class: drop matching characters
from both ends. -/
def stripBoth (p : Char → Bool) (cs : List Char) : List Char :=
  ((cs.dropWhile p).reverse.dropWhile p).reverse

/-- Python `str.lower` (ASCII fragment). -/
def toLowerList (cs : List Char) : List Char := cs.map Char.toLower

/-- The cleaned text of `_is_read_only`: sanitize, strip whitespace,
lowercase, then strip semicolons (Python `strip` removes the argument
characters from both ends). -/
def cleanedOf (cs : List Char) : List Char :=
  stripBoth (fun c => c = ';')
    (toLowerList (stripBoth isSpaceChar (_strip_comments_and_literals cs)))

/-- Strip the literal word `w` from the front, returning the remainder. -/
def stripLit : List Char → List Char → Option (List Char)
  | [], cs => some cs
  | _ :: _, [] => none
  | w :: ws, c :: cs => if c = w then stripLit ws cs else none

/-- The regex word boundary after a word: end of text or a non-word
character next. -/
def boundaryAfter : List Char → Bool
  | [] => true
  | c :: _ => !isWordChar c

/-- The word `w` occurs at the head of `t` with a word boundary after. -/
def afterLit (w t : List Char) : Bool := (stripLit w t).elim false boundaryAfter

/-- The select-or-with word-boundary alternation of the allow regex. -/
def tokSW (t : List Char) : Bool :=
  afterLit "select".data t || afterLit "with".data t

/-- One-or-more whitespace with maximal munch; every regex atom that
follows starts with a non-space character, so maximal munch is exact. -/
def afterSpaces1 : List Char → Option (List Char)
  | c :: r => if isSpaceChar c then some ((c :: r).dropWhile isSpaceChar) else none
  | [] => none

/-- The optional query-whitespace-plan-whitespace group of the allow
regex. -/
def queryPlanTail (t : List Char) : Option (List Char) :=
  match stripLit "query".data t with
  | none => none
  | some r1 =>
    match afterSpaces1 r1 with
    | none => none
    | some r2 =>
      match stripLit "plan".data r2 with
      | none => none
      | some r3 => afterSpaces1 r3

/-- The anchored allow regex of `_is_read_only`, with the backtracking of
the two optional groups made explicit as alternatives. -/
def rePrefixMatch (cs : List Char) : Bool :=
  let t := cs.dropWhile isSpaceChar
  (match stripLit "explain".data t with
   | some r =>
     match afterSpaces1 r with
     | some r2 =>
       (match queryPlanTail r2 with
        | some r4 => tokSW r4 || tokSW r2
        | none => tokSW r2)
     | none => false
   | none => false) || tokSW t

/-- The mutation, DDL and transaction vocabulary of the prohibited
regex. -/
def prohibitedWords : List (List Char) :=
  ["insert".data, "update".data, "delete".data, "replace".data,
   "create".data, "alter".data, "drop".data, "truncate".data,
   "attach".data, "detach".data, "vacuum".data, "reindex".data,
   "analyze".data, "begin".data, "commit".data, "rollback".data,
   "savepoint".data, "release".data, "pragma".data]

/-- Some vocabulary word starts at the head of `t` with a word boundary
after it. -/
def wordHere (t : List Char) : Bool :=
  prohibitedWords.any fun w => afterLit w t

/-- `re.search` of the prohibited regex: scan every position; the left
word boundary is tracked through the preceding character. -/
def searchAux : Bool → List Char → Bool
  | _, [] => false
  | prevW, c :: rest => (!prevW && wordHere (c :: rest)) || searchAux (isWordChar c) rest

/-- The prohibited-vocabulary search over the whole text. -/
def searchProhibited (cs : List Char) : Bool := searchAux false cs

/-- Embedding of `_is_read_only`: the anchored allow regex must match and
the prohibited search must find nothing. -/
def _is_read_only (cs : List Char) : Bool :=
  rePrefixMatch (cleanedOf cs) && !searchProhibited (cleanedOf cs)

end DBAgent

namespace DBAgent

/-! ## Spec-side formulation of the Guard classification

The claim describes the classifier in words: after sanitizing and
cleaning, the text must start (after any remaining leading whitespace)
with an optional explain or explain-query-plan prefix followed by select
or with as the first token, and must contain no whole-word occurrence of
a prohibited vocabulary term.  These predicates are written from those
words, as splitting existentials, and then proved equivalent to the
regex-based code. -/

/-- Spec side: the right-hand word boundary, as a proposition. -/
def RightB (r : List Char) : Prop :=
  r = [] ∨ ∃ c r2, r = c :: r2 ∧ isWordChar c = false

/-- Spec side: select or with occurs as the first token of `t`. -/
def TokenSW (t : List Char) : Prop :=
  (∃ r, t = "select".data ++ r ∧ RightB r) ∨
  (∃ r, t = "with".data ++ r ∧ RightB r)

/-- Spec side: a nonempty run of whitespace. -/
def Spaces1 (sp : List Char) : Prop :=
  sp ≠ [] ∧ ∀ c ∈ sp, isSpaceChar c = true

/-- Spec side: the cleaned text starts, after leading whitespace, with an
optional explain or explain-query-plan prefix followed by select or with
as the first token. -/
def SpecReadStart (cs : List Char) : Prop :=
  TokenSW (cs.dropWhile isSpaceChar) ∨
  (∃ sp r, Spaces1 sp ∧
    cs.dropWhile isSpaceChar = "explain".data ++ (sp ++ r) ∧ TokenSW r) ∨
  (∃ sp1 sp2 sp3 r, Spaces1 sp1 ∧ Spaces1 sp2 ∧ Spaces1 sp3 ∧
    cs.dropWhile isSpaceChar =
      "explain".data ++ (sp1 ++ ("query".data ++ (sp2 ++ ("plan".data ++ (sp3 ++ r))))) ∧
    TokenSW r)

/-- Spec side: the left word boundary before an occurrence: at the start
of the text or right after a non-word character. -/
def LeftB (a : List Char) : Prop :=
  a = [] ∨ ∃ a0 c, a = a0 ++ [c] ∧ isWordChar c = false

/-- Spec side: some prohibited vocabulary word occurs whole-word
somewhere in `cs`. -/
def HasProhibited (cs : List Char) : Prop :=
  ∃ w a b, w ∈ prohibitedWords ∧ cs = a ++ (w ++ b) ∧ LeftB a ∧ RightB b

/-- The left word boundary relative to a scan that already consumed a
preceding character of word-ness `prevW`. -/
def LeftBFrom (prevW : Bool) (a : List Char) : Prop :=
  (a = [] ∧ prevW = false) ∨ ∃ a0 c, a = a0 ++ [c] ∧ isWordChar c = false

/-! ### Equivalence of the prohibited-word search with its description -/

theorem stripLit_eq_some {w cs r : List Char} :
    stripLit w cs = some r ↔ cs = w ++ r := by
  induction w generalizing cs with
  | nil => simp [stripLit]
  | cons x ws ih =>
    cases cs with
    | nil => simp [stripLit]
    | cons c cs2 =>
      by_cases h : c = x
      · subst h; simp [stripLit, ih]
      · simp [stripLit, h]

theorem boundaryAfter_iff {r : List Char} :
    boundaryAfter r = true ↔ RightB r := by
  cases r with
  | nil => simp [boundaryAfter, RightB]
  | cons c r2 => simp [boundaryAfter, RightB, Bool.not_eq_true']

theorem afterLit_iff {w t : List Char} :
    afterLit w t = true ↔ ∃ r, t = w ++ r ∧ RightB r := by
  unfold afterLit
  cases h : stripLit w t with
  | none =>
    simp only [Option.elim_none]
    constructor
    · intro hh; exact absurd hh (by simp)
    · rintro ⟨r, hr, -⟩
      have h2 := stripLit_eq_some.mpr hr
      rw [h] at h2; cases h2
  | some r =>
    simp only [Option.elim_some]
    constructor
    · intro hb; exact ⟨r, stripLit_eq_some.mp h, boundaryAfter_iff.mp hb⟩
    · rintro ⟨r2, hr2, hb2⟩
      have h2 := stripLit_eq_some.mpr hr2
      rw [h] at h2
      cases h2
      exact boundaryAfter_iff.mpr hb2

theorem tokSW_iff {t : List Char} : tokSW t = true ↔ TokenSW t := by
  unfold tokSW TokenSW
  rw [Bool.or_eq_true, afterLit_iff, afterLit_iff]

theorem wordHere_iff {t : List Char} :
    wordHere t = true ↔
      ∃ w, w ∈ prohibitedWords ∧ ∃ r, t = w ++ r ∧ RightB r := by
  unfold wordHere
  rw [List.any_eq_true]
  constructor
  · rintro ⟨w, hw, ha⟩; exact ⟨w, hw, afterLit_iff.mp ha⟩
  · rintro ⟨w, hw, hr⟩; exact ⟨w, hw, afterLit_iff.mpr hr⟩

theorem prohibited_ne_nil : ∀ w ∈ prohibitedWords, w ≠ [] := by decide

theorem leftBFrom_cons {prevW : Bool} {c : Char} {a : List Char} :
    LeftBFrom prevW (c :: a) ↔ LeftBFrom (isWordChar c) a := by
  unfold LeftBFrom
  constructor
  · rintro (⟨h, -⟩ | ⟨a0, d, hsplit, hd⟩)
    · cases h
    · cases a0 with
      | nil =>
        simp only [List.nil_append] at hsplit
        obtain ⟨h1, rfl⟩ := List.cons.inj hsplit
        subst h1
        exact Or.inl ⟨rfl, hd⟩
      | cons x a0t =>
        rw [List.cons_append] at hsplit
        obtain ⟨rfl, h2⟩ := List.cons.inj hsplit
        exact Or.inr ⟨a0t, d, h2, hd⟩
  · rintro (⟨rfl, hp⟩ | ⟨a0, d, rfl, hd⟩)
    · exact Or.inr ⟨[], c, by simp, hp⟩
    · exact Or.inr ⟨c :: a0, d, by simp, hd⟩

theorem leftBFrom_false {a : List Char} : LeftBFrom false a ↔ LeftB a := by
  unfold LeftBFrom LeftB; simp

theorem searchAux_iff (cs : List Char) : ∀ prevW : Bool,
    searchAux prevW cs = true ↔
      ∃ w a b, w ∈ prohibitedWords ∧ cs = a ++ (w ++ b) ∧
        LeftBFrom prevW a ∧ RightB b := by
  induction cs with
  | nil =>
    intro prevW
    rw [show searchAux prevW [] = false from rfl]
    simp only [Bool.false_eq_true, false_iff]
    rintro ⟨w, a, b, hw, hsplit, -, -⟩
    have hne := prohibited_ne_nil w hw
    rcases List.append_eq_nil.mp hsplit.symm with ⟨-, h2⟩
    exact hne (List.append_eq_nil.mp h2).1
  | cons c rest ih =>
    intro prevW
    rw [searchAux, Bool.or_eq_true, Bool.and_eq_true, Bool.not_eq_true',
      wordHere_iff, ih (isWordChar c)]
    constructor
    · rintro (⟨hprev, w, hw, r, hr, hb⟩ | ⟨w, a, b, hw, hsplit, hl, hb⟩)
      · exact ⟨w, [], r, hw, by simpa using hr, Or.inl ⟨rfl, hprev⟩, hb⟩
      · exact ⟨w, c :: a, b, hw, by simp [hsplit], leftBFrom_cons.mpr hl, hb⟩
    · rintro ⟨w, a, b, hw, hsplit, hl, hb⟩
      cases a with
      | nil =>
        have hprev : prevW = false := by
          rcases hl with ⟨-, hp⟩ | ⟨a0, d, habs, -⟩
          · exact hp
          · exact absurd habs.symm (by simp)
        exact Or.inl ⟨hprev, w, hw, b, by simpa using hsplit, hb⟩
      | cons x a2 =>
        rw [List.cons_append] at hsplit
        obtain ⟨rfl, h2⟩ := List.cons.inj hsplit
        exact Or.inr ⟨w, a2, b, hw, h2, leftBFrom_cons.mp hl, hb⟩

theorem searchProhibited_iff {cs : List Char} :
    searchProhibited cs = true ↔ HasProhibited cs := by
  unfold searchProhibited HasProhibited
  rw [searchAux_iff]
  constructor
  · rintro ⟨w, a, b, hw, hs, hl, hb⟩
    exact ⟨w, a, b, hw, hs, leftBFrom_false.mp hl, hb⟩
  · rintro ⟨w, a, b, hw, hs, hl, hb⟩
    exact ⟨w, a, b, hw, hs, leftBFrom_false.mpr hl, hb⟩

end DBAgent

namespace DBAgent

/-! ### Equivalence of the anchored allow regex with its description -/

/-- The text is empty or starts with a non-space character. -/
def HeadNotSpace (r : List Char) : Prop :=
  r = [] ∨ ∃ c t, r = c :: t ∧ isSpaceChar c = false

theorem headNotSpace_dropWhile (l : List Char) :
    HeadNotSpace (l.dropWhile isSpaceChar) := by
  induction l with
  | nil => exact Or.inl rfl
  | cons c t ih =>
    by_cases h : isSpaceChar c
    · simpa [List.dropWhile_cons, h] using ih
    · exact Or.inr ⟨c, t, by simp [List.dropWhile_cons, h], by simpa using h⟩

theorem dropWhile_space_append {sp rest : List Char}
    (hsp : ∀ c ∈ sp, isSpaceChar c = true) (hns : HeadNotSpace rest) :
    (sp ++ rest).dropWhile isSpaceChar = rest := by
  induction sp with
  | nil =>
    simp only [List.nil_append]
    rcases hns with rfl | ⟨c, t, rfl, hc⟩
    · rfl
    · simp [List.dropWhile_cons, hc]
  | cons c t ih =>
    have hc := hsp c (by simp)
    simp only [List.cons_append, List.dropWhile_cons, hc, if_true]
    exact ih fun x hx => hsp x (by simp [hx])

theorem afterSp_of {r r2 : List Char} (h : afterSpaces1 r = some r2) :
    ∃ sp, Spaces1 sp ∧ r = sp ++ r2 ∧ HeadNotSpace r2 := by
  cases r with
  | nil => cases h
  | cons c tl =>
    rw [show afterSpaces1 (c :: tl)
        = if isSpaceChar c then some ((c :: tl).dropWhile isSpaceChar) else none
      from rfl] at h
    by_cases hc : isSpaceChar c
    · rw [if_pos hc] at h
      obtain rfl := Option.some.inj h
      refine ⟨(c :: tl).takeWhile isSpaceChar, ⟨?_, ?_⟩, ?_, ?_⟩
      · simp [List.takeWhile_cons, hc]
      · intro x hx; exact List.mem_takeWhile_imp hx
      · exact (List.takeWhile_append_dropWhile isSpaceChar (c :: tl)).symm
      · exact headNotSpace_dropWhile (c :: tl)
    · rw [if_neg hc] at h; cases h

theorem afterSp_eq {sp r2 : List Char} (hsp : Spaces1 sp) (hns : HeadNotSpace r2) :
    afterSpaces1 (sp ++ r2) = some r2 := by
  obtain ⟨hne, hall⟩ := hsp
  cases sp with
  | nil => exact absurd rfl hne
  | cons c t =>
    have hc := hall c (by simp)
    have hdrop : (c :: (t ++ r2)).dropWhile isSpaceChar = r2 := by
      simp only [List.dropWhile_cons, hc, if_true]
      exact dropWhile_space_append (fun x hx => hall x (by simp [hx])) hns
    rw [List.cons_append,
      show afterSpaces1 (c :: (t ++ r2))
          = if isSpaceChar c then some ((c :: (t ++ r2)).dropWhile isSpaceChar) else none
        from rfl,
      if_pos hc, hdrop]

theorem tokenSW_headNotSpace {r : List Char} (h : TokenSW r) : HeadNotSpace r := by
  rcases h with ⟨rr, rfl, -⟩ | ⟨rr, rfl, -⟩
  · exact Or.inr ⟨'s', "elect".data ++ rr, rfl, by decide⟩
  · exact Or.inr ⟨'w', "ith".data ++ rr, rfl, by decide⟩

theorem qpt_of {r2 r4 : List Char} (h : queryPlanTail r2 = some r4) :
    ∃ sp2 sp3, Spaces1 sp2 ∧ Spaces1 sp3 ∧
      r2 = "query".data ++ (sp2 ++ ("plan".data ++ (sp3 ++ r4))) ∧
      HeadNotSpace r4 := by
  unfold queryPlanTail at h
  cases h1 : stripLit "query".data r2 with
  | none => simp only [h1] at h; exact Option.noConfusion h
  | some x1 =>
    simp only [h1] at h
    cases h2 : afterSpaces1 x1 with
    | none => simp only [h2] at h; exact Option.noConfusion h
    | some x2 =>
      simp only [h2] at h
      cases h3 : stripLit "plan".data x2 with
      | none => simp only [h3] at h; exact Option.noConfusion h
      | some x3 =>
        simp only [h3] at h
        obtain ⟨sp2, hsp2, hx1, -⟩ := afterSp_of h2
        obtain ⟨sp3, hsp3, hx3, hns4⟩ := afterSp_of h
        refine ⟨sp2, sp3, hsp2, hsp3, ?_, hns4⟩
        rw [stripLit_eq_some.mp h1, hx1, stripLit_eq_some.mp h3, hx3]

theorem qpt_eq {sp2 sp3 r4 : List Char} (h2 : Spaces1 sp2) (h3 : Spaces1 sp3)
    (hns : HeadNotSpace r4) :
    queryPlanTail ("query".data ++ (sp2 ++ ("plan".data ++ (sp3 ++ r4)))) = some r4 := by
  unfold queryPlanTail
  have hq : stripLit "query".data
        ("query".data ++ (sp2 ++ ("plan".data ++ (sp3 ++ r4))))
      = some (sp2 ++ ("plan".data ++ (sp3 ++ r4))) := stripLit_eq_some.mpr rfl
  have hnsp : HeadNotSpace ("plan".data ++ (sp3 ++ r4)) :=
    Or.inr ⟨'p', "lan".data ++ (sp3 ++ r4), rfl, by decide⟩
  have ha1 : afterSpaces1 (sp2 ++ ("plan".data ++ (sp3 ++ r4)))
      = some ("plan".data ++ (sp3 ++ r4)) := afterSp_eq h2 hnsp
  have hp : stripLit "plan".data ("plan".data ++ (sp3 ++ r4)) = some (sp3 ++ r4) :=
    stripLit_eq_some.mpr rfl
  have ha2 : afterSpaces1 (sp3 ++ r4) = some r4 := afterSp_eq h3 hns
  simp only [hq, ha1, hp, ha2]

theorem rePrefixMatch_iff {cs : List Char} :
    rePrefixMatch cs = true ↔ SpecReadStart cs := by
  unfold rePrefixMatch SpecReadStart
  rw [Bool.or_eq_true, tokSW_iff]
  constructor
  · rintro (hexp | hsw)
    · refine Or.inr ?_
      cases h1 : stripLit "explain".data (cs.dropWhile isSpaceChar) with
      | none => simp only [h1] at hexp; exact absurd hexp (by simp)
      | some r =>
        simp only [h1] at hexp
        cases h2 : afterSpaces1 r with
        | none => simp only [h2] at hexp; exact absurd hexp (by simp)
        | some r2 =>
          simp only [h2] at hexp
          obtain ⟨sp, hsp, hr, -⟩ := afterSp_of h2
          have hts : cs.dropWhile isSpaceChar = "explain".data ++ (sp ++ r2) := by
            rw [stripLit_eq_some.mp h1, hr]
          cases h3 : queryPlanTail r2 with
          | none =>
            simp only [h3] at hexp
            exact Or.inl ⟨sp, r2, hsp, hts, tokSW_iff.mp hexp⟩
          | some r4 =>
            simp only [h3, Bool.or_eq_true] at hexp
            rcases hexp with h4 | h5
            · obtain ⟨sp2, sp3, hsp2, hsp3, hr2, -⟩ := qpt_of h3
              refine Or.inr ⟨sp, sp2, sp3, r4, hsp, hsp2, hsp3, ?_, tokSW_iff.mp h4⟩
              rw [hts, hr2]
            · exact Or.inl ⟨sp, r2, hsp, hts, tokSW_iff.mp h5⟩
    · exact Or.inl hsw
  · rintro (hsw | ⟨sp, r, hsp, hts, htok⟩ | ⟨sp1, sp2, sp3, r, h1, h2, h3, hts, htok⟩)
    · exact Or.inr hsw
    · refine Or.inl ?_
      have hstrip : stripLit "explain".data (cs.dropWhile isSpaceChar)
          = some (sp ++ r) := stripLit_eq_some.mpr hts
      have hsp1 : afterSpaces1 (sp ++ r) = some r :=
        afterSp_eq hsp (tokenSW_headNotSpace htok)
      simp only [hstrip, hsp1]
      cases h3 : queryPlanTail r with
      | none => exact tokSW_iff.mpr htok
      | some r4 =>
        rw [Bool.or_eq_true]
        exact Or.inr (tokSW_iff.mpr htok)
    · refine Or.inl ?_
      have hstrip : stripLit "explain".data (cs.dropWhile isSpaceChar)
          = some (sp1 ++ ("query".data ++ (sp2 ++ ("plan".data ++ (sp3 ++ r))))) :=
        stripLit_eq_some.mpr hts
      have hnsq : HeadNotSpace ("query".data ++ (sp2 ++ ("plan".data ++ (sp3 ++ r)))) :=
        Or.inr ⟨'q', "uery".data ++ (sp2 ++ ("plan".data ++ (sp3 ++ r))), rfl, by decide⟩
      have hsp1e : afterSpaces1 (sp1 ++ ("query".data ++ (sp2 ++ ("plan".data ++ (sp3 ++ r)))))
          = some ("query".data ++ (sp2 ++ ("plan".data ++ (sp3 ++ r)))) :=
        afterSp_eq h1 hnsq
      have hqpt := qpt_eq h2 h3 (tokenSW_headNotSpace htok)
      simp only [hstrip, hsp1e, hqpt, Bool.or_eq_true]
      exact Or.inl (tokSW_iff.mpr htok)

end DBAgent

namespace DBAgent

/-! ## Claims about the Guard -/

/-- Spec-side classification with the amendment that semicolons are
stripped from both ends, as Python `strip` does. -/
def specAllowedAmended (cs : List Char) : Prop :=
  SpecReadStart (cleanedOf cs) ∧ ¬ HasProhibited (cleanedOf cs)

/-- The cleaning exactly as the claim words it: comments and literals
stripped, whitespace trimmed, lowercased, and only trailing semicolons
removed. -/
def cleanedClaimed (cs : List Char) : List Char :=
  ((toLowerList (stripBoth isSpaceChar (_strip_comments_and_literals cs))).reverse.dropWhile
    (fun c => c = ';')).reverse

/-- Spec-side classification exactly as the claim states it, with only
trailing semicolons trimmed. -/
def specAllowedClaimed (cs : List Char) : Prop :=
  SpecReadStart (cleanedClaimed cs) ∧ ¬ HasProhibited (cleanedClaimed cs)

/-- C1 (amended): for every SQL text, `_is_read_only` returns allowed if
and only if, after stripping comments and string literals, trimming
whitespace, stripping semicolons from both ends (the code strips leading
semicolons too, not only trailing ones), and lowercasing, the text
matches an optional leading explain or explain-query-plan prefix followed
by select or with as the first token and contains no whole-word
occurrence of a prohibited vocabulary term; in particular the statement
SELECT 1; DROP TABLE t is rejected despite its leading SELECT. -/
theorem c1_guard_classification :
    (∀ cs : List Char, _is_read_only cs = true ↔ specAllowedAmended cs) ∧
    _is_read_only "SELECT 1; DROP TABLE t".data = false := by
  constructor
  · intro cs
    unfold _is_read_only specAllowedAmended
    rw [Bool.and_eq_true, rePrefixMatch_iff, Bool.not_eq_true']
    constructor
    · rintro ⟨h1, h2⟩
      refine ⟨h1, fun hp => ?_⟩
      rw [searchProhibited_iff.mpr hp] at h2
      cases h2
    · rintro ⟨h1, h2⟩
      refine ⟨h1, ?_⟩
      cases hsp : searchProhibited (cleanedOf cs)
      · rfl
      · exact absurd (searchProhibited_iff.mp hsp) h2
  · decide

/-- Witness for C1: the equivalence applied at a concrete allowed
statement. -/
theorem c1_guard_classification_witness :
    _is_read_only "select 2".data = true ∧ specAllowedAmended "select 2".data :=
  ⟨by decide, (c1_guard_classification.1 "select 2".data).mp (by decide)⟩

/-- A statement whose text begins with a semicolon followed by select. -/
def c1CexInput : List Char := ';' :: "select 1".data

/-- C1 counterexample: the claim trims only trailing semicolons, but the
code strips leading semicolons as well, so the statement consisting of a
semicolon followed by select 1 is allowed by the code while the claimed
description rejects it. -/
theorem c1_claim_counterexample :
    _is_read_only c1CexInput = true ∧ ¬ specAllowedClaimed c1CexInput := by
  refine ⟨by decide, ?_⟩
  rintro ⟨hstart, -⟩
  have hc : cleanedClaimed c1CexInput = ';' :: "select 1".data := by decide
  rw [hc] at hstart
  have hd : (';' :: "select 1".data).dropWhile isSpaceChar
      = ';' :: "select 1".data := rfl
  unfold SpecReadStart at hstart
  rw [hd] at hstart
  rcases hstart with htok | ⟨sp, r, -, heq, -⟩ | ⟨sp1, sp2, sp3, r, -, -, -, heq, -⟩
  · rcases htok with ⟨r, heq, -⟩ | ⟨r, heq, -⟩
    · have hh : (some ';' : Option Char) = some 's' := congrArg List.head? heq
      simp at hh
    · have hh : (some ';' : Option Char) = some 'w' := congrArg List.head? heq
      simp at hh
  · have hh : (some ';' : Option Char) = some 'e' := congrArg List.head? heq
    simp at hh
  · have hh : (some ';' : Option Char) = some 'e' := congrArg List.head? heq
    simp at hh

/-- The statement SELECT 1 followed by a line comment holding the word
drop. -/
def c2LineInput : List Char := "SELECT 1 -- drop".data

/-- The statement SELECT 1 followed by a block comment holding the word
drop. -/
def c2BlockInput : List Char := "SELECT 1 /* drop */".data

/-- C2 (code bug evaluation): the line-comment substitution pattern ends
in a group whose first alternative is empty and always matches, so only
the dash-dash marker is replaced and the comment body survives
sanitization; a prohibited keyword inside a line comment therefore causes
rejection, contradicting the claim, while the same keyword inside a
block comment is stripped and the statement stays allowed. -/
theorem c2_line_comment_divergence :
    _strip_comments_and_literals c2LineInput = "SELECT 1   drop".data ∧
    _is_read_only c2LineInput = false ∧
    _is_read_only c2BlockInput = true :=
  ⟨by decide, by decide, by decide⟩

/-- The statement selecting rows whose name column equals the quoted
string drop table. -/
def c10Input : List Char :=
  "SELECT * FROM t WHERE name=".data ++ ('\'' :: "drop table".data) ++ ['\'']

/-- C10: the statement SELECT * FROM t WHERE name equals the quoted
literal drop table is classified as allowed; the literal is replaced by a
neutral placeholder before the prohibited-keyword search, so the keyword
inside it does not trigger rejection. -/
theorem c10_literal_keyword_allowed : _is_read_only c10Input = true := by
  decide

end DBAgent

namespace DBAgent

/-! ## Values, rows and outcomes

Rows fetched from sqlite are tuples of scalar values; the controller
normalizes them to lists.  Python equality on this fragment is
structural, and a list never compares equal to a tuple, which the
distinct constructors capture. -/

/-- Scalar column values (the fragment used by the repository). -/
inductive PyVal
  | vInt (i : ℤ)
  | vStr (s : String)
  | vNone
  deriving DecidableEq

/-- A row-level Python object: a scalar, a list of scalars, or a tuple of
scalars. -/
inductive PyObj
  | scalar (v : PyVal)
  | vList (xs : List PyVal)
  | vTuple (xs : List PyVal)
  deriving DecidableEq

/-- The dictionary returned by `safe_query`. -/
structure Outcome where
  success : Bool
  status : String
  elapsed_ms : ℚ
  results : List PyObj
  error : Option String
  deriving DecidableEq

/-- A sqlite connection: whether a progress handler is installed (and the
deadline its closure captured), and whether the connection is open. -/
structure Conn where
  handler : Option (Option ℚ)
  isOpen : Bool
  deriving DecidableEq

/-- What the backend evaluation of one statement yields when it is not
aborted: the fetched rows, or an error message. -/
inductive BackendRes
  | rows (rs : List (List PyVal))
  | failure (msg : String)
  deriving DecidableEq

/-- The observable behaviour of one backend evaluation: the times at
which the backend invokes the installed progress handler (it does so at
bounded operation-count granularity), the time at which the elapsed
milliseconds are measured on the exit path taken, and the evaluation
result when not aborted. -/
structure ExecEnv where
  checkTimes : List ℚ
  endTime : ℚ
  backendRes : BackendRes
  deriving DecidableEq

/-! ## Execution engine: `safe_query` -/

/-- Embedding of the closure produced by `_progress_handler_generator`:
request abort (return 1) when a deadline is set and the current time has
reached it, else 0. -/
def _progress_handler (deadline : Option ℚ) (now : ℚ) : Nat :=
  match deadline with
  | some d => if d ≤ now then 1 else 0
  | none => 0

/-- The first backend progress check at which the installed handler
requests abort. -/
def firstAbort (deadline : Option ℚ) (ts : List ℚ) : Option ℚ :=
  ts.find? fun t => _progress_handler deadline t = 1

/-- `w` starts at the head of `cs`. -/
def startsWithL (w cs : List Char) : Bool := (stripLit w cs).isSome

/-- Python substring membership. -/
def containsSeg (w : List Char) : List Char → Bool
  | [] => w.isEmpty
  | c :: r => startsWithL w (c :: r) || containsSeg w r

/-- Status classification of a caught backend error, from the except
branch of `safe_query`: the timed-out status when the lowercased message
holds the word interrupted, else the execution-failed status. -/
def statusOfError (msg : List Char) : String :=
  if containsSeg "interrupted".data (toLowerList msg) then "TimeOut" else "ExecFailed"

/-- Embedding of `safe_query`.  The policy-rejection path returns before
any handler is installed and leaves the connection untouched.  Otherwise
the deadline is computed from the entry time and the budget, the handler
is installed, and evaluation either aborts at the first progress check
past the deadline (sqlite then raises an error whose message is the word
interrupted), completes with rows fetched as tuples, or fails with a
backend message; the finally block resets the handler on each of those
paths. -/
def safe_query (conn : Conn) (sql : List Char) (msx_ms : ℤ) (start : ℚ)
    (env : ExecEnv) : Outcome × Conn :=
  if _is_read_only sql = false then
    ({ success := false, status := "NoSafe",
       elapsed_ms := (env.endTime - start) * 1000,
       results := [], error := some "Query rejected by read-only policy" }, conn)
  else
    let deadline : Option ℚ :=
      if 0 < msx_ms then some (start + (msx_ms : ℚ) / 1000) else none
    let conn1 : Conn := { conn with handler := some deadline }
    match firstAbort deadline env.checkTimes with
    | some _ =>
        ({ success := false, status := statusOfError "interrupted".data,
           elapsed_ms := (env.endTime - start) * 1000,
           results := [], error := some "interrupted" },
         { conn1 with handler := none })
    | none =>
        match env.backendRes with
        | BackendRes.rows rs =>
            ({ success := true, status := "success",
               elapsed_ms := (env.endTime - start) * 1000,
               results := rs.map PyObj.vTuple, error := none },
             { conn1 with handler := none })
        | BackendRes.failure msg =>
            ({ success := false, status := statusOfError msg.data,
               elapsed_ms := (env.endTime - start) * 1000,
               results := [], error := some msg },
             { conn1 with handler := none })

end DBAgent

namespace DBAgent

/-! ## Claims about the execution engine -/

/-- C3: for an allowed statement with a positive timeout budget whose
evaluation is progress-checked at or past the absolute deadline computed
at start, `safe_query` returns the timed-out status with success false
and elapsed milliseconds at least the configured budget; moreover the
installed deadline check requests abort exactly at the times that have
reached the deadline. -/
theorem c3_timeout_outcome (conn : Conn) (sql : List Char) (msx_ms : ℤ)
    (start : ℚ) (env : ExecEnv)
    (hro : _is_read_only sql = true) (hpos : 0 < msx_ms)
    (hpast : ∃ t ∈ env.checkTimes, start + (msx_ms : ℚ) / 1000 ≤ t)
    (hmono : ∀ t ∈ env.checkTimes, t ≤ env.endTime) :
    ((safe_query conn sql msx_ms start env).1.status = "TimeOut" ∧
     (safe_query conn sql msx_ms start env).1.success = false ∧
     (msx_ms : ℚ) ≤ (safe_query conn sql msx_ms start env).1.elapsed_ms) ∧
    (∀ now, start + (msx_ms : ℚ) / 1000 ≤ now →
      _progress_handler (some (start + (msx_ms : ℚ) / 1000)) now = 1) ∧
    (∀ now, now < start + (msx_ms : ℚ) / 1000 →
      _progress_handler (some (start + (msx_ms : ℚ) / 1000)) now = 0) := by
  obtain ⟨t0, ht0mem, ht0le⟩ := hpast
  have hfound : (env.checkTimes.find? fun t =>
      _progress_handler (some (start + (msx_ms : ℚ) / 1000)) t = 1).isSome := by
    rw [List.find?_isSome]
    exact ⟨t0, ht0mem, by simp [_progress_handler, ht0le]⟩
  obtain ⟨ta, hta⟩ := Option.isSome_iff_exists.mp hfound
  have hdmem : ta ∈ env.checkTimes := List.mem_of_find?_eq_some hta
  have hdle : start + (msx_ms : ℚ) / 1000 ≤ ta := by
    have hp := List.find?_some hta
    by_contra hlt
    simp [_progress_handler, if_neg (fun hh => hlt hh)] at hp
  have hend : start + (msx_ms : ℚ) / 1000 ≤ env.endTime :=
    le_trans hdle (hmono ta hdmem)
  have hsq : (safe_query conn sql msx_ms start env).1
      = { success := false, status := statusOfError "interrupted".data,
          elapsed_ms := (env.endTime - start) * 1000,
          results := [], error := some "interrupted" } := by
    have hfa : firstAbort
        (if 0 < msx_ms then some (start + (msx_ms : ℚ) / 1000) else none)
        env.checkTimes = some ta := by
      rw [if_pos hpos]; exact hta
    simp [safe_query, hro, hfa]
  refine ⟨⟨?_, ?_, ?_⟩, ?_, ?_⟩
  · rw [hsq]
    show statusOfError "interrupted".data = "TimeOut"
    decide
  · rw [hsq]
  · rw [hsq]
    show (msx_ms : ℚ) ≤ (env.endTime - start) * 1000
    linarith
  · intro now hnow
    simp [_progress_handler, hnow]
  · intro now hnow
    simp [_progress_handler, if_neg (not_le.mpr hnow)]

/-- Witness for C3: a concrete one-second budget whose single progress
check happens at two seconds. -/
theorem c3_timeout_outcome_witness :
    (safe_query ⟨none, true⟩ "select 1".data 1000 0
        ⟨[2], 2, BackendRes.rows []⟩).1.status = "TimeOut" ∧
    (safe_query ⟨none, true⟩ "select 1".data 1000 0
        ⟨[2], 2, BackendRes.rows []⟩).1.success = false ∧
    (1000 : ℚ) ≤ (safe_query ⟨none, true⟩ "select 1".data 1000 0
        ⟨[2], 2, BackendRes.rows []⟩).1.elapsed_ms := by
  have h := c3_timeout_outcome ⟨none, true⟩ "select 1".data 1000 0
    ⟨[2], 2, BackendRes.rows []⟩ (by decide) (by decide)
    ⟨2, by simp, by norm_num⟩
    (by intro t ht; simp at ht; rw [ht])
  refine ⟨h.1.1, h.1.2.1, ?_⟩
  have := h.1.2.2
  exact_mod_cast this

/-- C8: whenever the guard passes, `safe_query` installs the deadline
check and the finally block uninstalls it on success, backend error and
timeout alike, so the returned connection carries no handler; the
policy-rejection path returns before any install and leaves the
connection untouched, so from any entry state with no handler installed
(the program invariant, since handlers are only ever set inside
`safe_query`), every exit path returns with no handler installed. -/
theorem c8_handler_uninstalled (conn : Conn) (sql : List Char) (msx_ms : ℤ)
    (start : ℚ) (env : ExecEnv) :
    (_is_read_only sql = true →
      ((safe_query conn sql msx_ms start env).2).handler = none) ∧
    (conn.handler = none →
      ((safe_query conn sql msx_ms start env).2).handler = none) ∧
    (_is_read_only sql = false →
      (safe_query conn sql msx_ms start env).2 = conn) := by
  cases hro : _is_read_only sql with
  | false =>
    have hs : (safe_query conn sql msx_ms start env).2 = conn := by
      unfold safe_query
      rw [hro, if_pos rfl]
    exact ⟨fun h => Bool.noConfusion h, fun h => by rw [hs]; exact h,
      fun _ => hs⟩
  | true =>
    have hs : ((safe_query conn sql msx_ms start env).2).handler = none := by
      unfold safe_query
      rw [hro, if_neg (by simp : ¬ (true = false))]
      dsimp only
      split
      · rfl
      · split
        · rfl
        · rfl
    exact ⟨fun _ => hs, fun _ => hs, fun hf => Bool.noConfusion hf⟩

/-- Witness for C8: a guard-passing execution returns with the handler
uninstalled. -/
theorem c8_handler_uninstalled_witness :
    ((safe_query ⟨none, true⟩ "select 1".data 1000 0
        ⟨[], 1, BackendRes.rows []⟩).2).handler = none :=
  (c8_handler_uninstalled ⟨none, true⟩ "select 1".data 1000 0
    ⟨[], 1, BackendRes.rows []⟩).1 (by decide)

end DBAgent

namespace DBAgent

/-! ## Agent loop controller: `BasicAgent.run`

The oracle is the only external dependency: each planner round sends one
chat request whose reply either decodes to a payload (a dictionary read
with defaults, so absent fields are empty strings) or raises; the final
summarization round does the same.  Wall-clock inputs of each guarded
execution are supplied per call.  A failing `conn.close()` is modelled by
`closeError`. -/

/-- Python `str.strip` on strings. -/
def pyStripStr (s : String) : String := String.mk (stripBoth isSpaceChar s.data)

/-- Python `str.lower` on strings (ASCII fragment). -/
def pyLowerStr (s : String) : String := String.mk (toLowerList s.data)

/-- Embedding of `_normalize_results`: tuples become lists, everything
else is kept. -/
def _normalize_results (results : List PyObj) : List PyObj :=
  results.map fun r =>
    match r with
    | PyObj.vTuple xs => PyObj.vList xs
    | x => x

/-- The parsed planner reply, read with empty-string defaults. -/
structure PlannerPayload where
  action : String
  reasoning : String
  sql : List Char
  final_answer : String
  deriving DecidableEq

/-- A propagated hard failure: oracle transport errors, malformed JSON,
or a failing close. -/
inductive AgErr
  | oracle (msg : String)
  | badJson (msg : String)
  | closeFail (msg : String)
  deriving DecidableEq

/-- The execution record stored in a step. -/
structure SQLExecution where
  executed : Bool
  success : Bool
  status : String
  elapsed_ms : ℚ
  results : List PyObj
  error : Option String
  deriving DecidableEq

/-- One query round of the transcript. -/
structure QueryStep where
  reasoning : String
  sql : List Char
  execution : SQLExecution
  deriving DecidableEq

/-- The transcript returned by a run. -/
structure AgentResult where
  steps : List QueryStep
  final_answer : String
  deriving DecidableEq

/-- The external world of one run: the planner oracle per call index, the
summarization oracle, the wall-clock data of each guarded execution, the
per-execution timeout budget, and whether closing the connection
raises. -/
structure RunEnv where
  planner : Nat → Except AgErr PlannerPayload
  summarizer : Except AgErr String
  execEnvs : Nat → ExecEnv
  startTimes : Nat → ℚ
  msx_ms : ℤ
  closeError : Option AgErr

/-- Result of the planning loop: the outcome (or propagated failure),
the threaded connection, the number of planner calls made, and the
number of guarded executions performed. -/
structure LoopOut where
  res : Except AgErr (List QueryStep × Option String)
  conn : Conn
  plannerCalls : Nat
  execCalls : Nat

/-- The `for` loop of `BasicAgent.run`: each round asks the planner; a
final action adopts the answer, a non-query action or empty SQL adopts a
fixed diagnostic answer, and a query executes through `safe_query` and
appends one step; a planner failure propagates. -/
def runLoop (env : RunEnv) : Nat → Nat → Conn → List QueryStep → Nat → LoopOut
  | 0, i, conn, steps, execs => ⟨Except.ok (steps, none), conn, i, execs⟩
  | n + 1, i, conn, steps, execs =>
    match env.planner i with
    | Except.error e => ⟨Except.error e, conn, i + 1, execs⟩
    | Except.ok payload =>
      if pyLowerStr (pyStripStr payload.action) = "final" then
        ⟨Except.ok (steps, some (pyStripStr payload.final_answer)), conn, i + 1, execs⟩
      else if pyLowerStr (pyStripStr payload.action) ≠ "query" then
        ⟨Except.ok (steps, some "Agent returned an invalid action."), conn, i + 1, execs⟩
      else
        let sql := stripBoth isSpaceChar payload.sql
        if sql = [] then
          ⟨Except.ok (steps, some "Agent did not provide SQL to execute."), conn, i + 1, execs⟩
        else
          let sqres := safe_query conn sql env.msx_ms (env.startTimes i) (env.execEnvs i)
          let execution : SQLExecution :=
            { executed := true, success := sqres.1.success, status := sqres.1.status,
              elapsed_ms := sqres.1.elapsed_ms,
              results := _normalize_results sqres.1.results,
              error := sqres.1.error }
          runLoop env n (i + 1) sqres.2
            (steps ++ [⟨payload.reasoning, sql, execution⟩]) (execs + 1)

/-- Result of the run body before the finally block. -/
structure BodyOut where
  res : Except AgErr AgentResult
  conn : Conn
  plannerCalls : Nat
  summarizerCalls : Nat
  execCalls : Nat

/-- The try body of `BasicAgent.run`: the planning loop, then, when no
final answer was adopted, exactly one summarization-only oracle call
whose answer is adopted. -/
def runBody (env : RunEnv) (conn0 : Conn) (max_steps : Nat) : BodyOut :=
  let L := runLoop env max_steps 0 conn0 [] 0
  match L.res with
  | Except.error e => ⟨Except.error e, L.conn, L.plannerCalls, 0, L.execCalls⟩
  | Except.ok (steps, some ans) =>
      ⟨Except.ok ⟨steps, ans⟩, L.conn, L.plannerCalls, 0, L.execCalls⟩
  | Except.ok (steps, none) =>
      match env.summarizer with
      | Except.error e => ⟨Except.error e, L.conn, L.plannerCalls, 1, L.execCalls⟩
      | Except.ok ans =>
          ⟨Except.ok ⟨steps, pyStripStr ans⟩, L.conn, L.plannerCalls, 1, L.execCalls⟩

/-- What a whole run yields: the returned result or propagated failure
after the finally block ran, the closed connection, and the call
counters. -/
structure RunOut where
  result : Except AgErr AgentResult
  conn : Conn
  plannerCalls : Nat
  summarizerCalls : Nat
  execCalls : Nat

/-- Embedding of `BasicAgent.run`: the body, then the finally block that
always closes the connection; a close failure is re-raised only when the
body finished without failure, otherwise the body failure propagates
unchanged. -/
def runAgent (env : RunEnv) (conn0 : Conn) (max_steps : Nat) : RunOut :=
  let B := runBody env conn0 max_steps
  { result :=
      match B.res, env.closeError with
      | Except.error e, _ => Except.error e
      | Except.ok _, some ce => Except.error ce
      | Except.ok r, none => Except.ok r
    conn := { B.conn with isOpen := false }
    plannerCalls := B.plannerCalls
    summarizerCalls := B.summarizerCalls
    execCalls := B.execCalls }

end DBAgent

namespace DBAgent

/-! ## Claims about the controller -/

/-- C9: for every run that opened its connection, the connection is
closed on every exit path: the run output always carries a closed
connection, a body failure propagates unchanged even when the close
fails too, a clean body with a clean close returns the body result, and a
close failure is surfaced exactly when no body failure was already
propagating. -/
theorem c9_connection_close (env : RunEnv) (conn0 : Conn) (n : Nat) :
    ((runAgent env conn0 n).conn).isOpen = false ∧
    (∀ e, (runBody env conn0 n).res = Except.error e →
      (runAgent env conn0 n).result = Except.error e) ∧
    (∀ r, (runBody env conn0 n).res = Except.ok r → env.closeError = none →
      (runAgent env conn0 n).result = Except.ok r) ∧
    (∀ r ce, (runBody env conn0 n).res = Except.ok r → env.closeError = some ce →
      (runAgent env conn0 n).result = Except.error ce) := by
  refine ⟨rfl, ?_, ?_, ?_⟩
  · intro e h
    simp only [runAgent, h]
  · intro r h hce
    simp only [runAgent, h, hce]
  · intro r ce h hce
    simp only [runAgent, h, hce]

/-- A run environment whose oracle answers final at once and whose close
raises. -/
def c9Env : RunEnv :=
  { planner := fun _ => Except.ok ⟨"final", "", [], "done"⟩,
    summarizer := Except.ok "s",
    execEnvs := fun _ => ⟨[], 0, BackendRes.rows []⟩,
    startTimes := fun _ => 0,
    msx_ms := 1000,
    closeError := some (AgErr.closeFail "boom") }

/-- Witness for C9: the concrete run ends with a closed connection, and
the close failure surfaces because no body failure was propagating. -/
theorem c9_connection_close_witness :
    ((runAgent c9Env ⟨none, true⟩ 2).conn).isOpen = false ∧
    (runAgent c9Env ⟨none, true⟩ 2).result
      = Except.error (AgErr.closeFail "boom") := by
  have h := c9_connection_close c9Env ⟨none, true⟩ 2
  exact ⟨h.1, h.2.2.2 ⟨[], "done"⟩ (AgErr.closeFail "boom") rfl rfl⟩

end DBAgent

namespace DBAgent

/-- When every planner reply is a well-formed query action with non-empty
SQL, the loop never breaks: it runs all its rounds, appends one step and
performs one guarded execution per round, and ends with no final
answer. -/
theorem runLoop_all_query (env : RunEnv)
    (hq : ∀ j, ∃ p, env.planner j = Except.ok p ∧
        pyLowerStr (pyStripStr p.action) = "query" ∧
        stripBoth isSpaceChar p.sql ≠ []) :
    ∀ (n i : Nat) (conn : Conn) (steps : List QueryStep) (execs : Nat),
      ∃ steps2 conn2,
        runLoop env n i conn steps execs
          = ⟨Except.ok (steps2, none), conn2, i + n, execs + n⟩ ∧
        steps2.length = steps.length + n := by
  intro n
  induction n with
  | zero =>
    intro i conn steps execs
    exact ⟨steps, conn, rfl, rfl⟩
  | succ m ih =>
    intro i conn steps execs
    obtain ⟨p, hp, hact, hsql⟩ := hq i
    have hfinal : ¬ (pyLowerStr (pyStripStr p.action) = "final") := by
      rw [hact]; decide
    have hquery : ¬ (pyLowerStr (pyStripStr p.action) ≠ "query") := by
      rw [hact]; simp
    obtain ⟨steps2, conn2, hrun, hlen⟩ :=
      ih (i + 1)
        (safe_query conn (stripBoth isSpaceChar p.sql) env.msx_ms
          (env.startTimes i) (env.execEnvs i)).2
        (steps ++ [⟨p.reasoning, stripBoth isSpaceChar p.sql,
          { executed := true,
            success := (safe_query conn (stripBoth isSpaceChar p.sql) env.msx_ms
              (env.startTimes i) (env.execEnvs i)).1.success,
            status := (safe_query conn (stripBoth isSpaceChar p.sql) env.msx_ms
              (env.startTimes i) (env.execEnvs i)).1.status,
            elapsed_ms := (safe_query conn (stripBoth isSpaceChar p.sql) env.msx_ms
              (env.startTimes i) (env.execEnvs i)).1.elapsed_ms,
            results := _normalize_results
              ((safe_query conn (stripBoth isSpaceChar p.sql) env.msx_ms
                (env.startTimes i) (env.execEnvs i)).1.results),
            error := (safe_query conn (stripBoth isSpaceChar p.sql) env.msx_ms
              (env.startTimes i) (env.execEnvs i)).1.error }⟩])
        (execs + 1)
    refine ⟨steps2, conn2, ?_, ?_⟩
    · rw [runLoop, hp]
      simp only [if_neg hfinal, if_neg hquery, if_neg hsql]
      rw [hrun]
      have h1 : i + 1 + m = i + (m + 1) := by omega
      have h2 : execs + 1 + m = execs + (m + 1) := by omega
      rw [h1, h2]
    · rw [hlen]
      simp only [List.length_append, List.length_singleton]
      omega

/-- C4: when the oracle returns a well-formed query action with non-empty
SQL on every call and never a final action (and closing the connection
succeeds), the run performs exactly `max_steps` guarded query rounds, the
returned transcript holds exactly `max_steps` steps, the planner was
called exactly `max_steps` times, exactly one summarization-only call
follows with no further guarded execution, and its stripped answer is
adopted as the final answer. -/
theorem c4_round_bound (env : RunEnv) (conn0 : Conn) (max_steps : Nat)
    (ans : String)
    (hq : ∀ j, ∃ p, env.planner j = Except.ok p ∧
        pyLowerStr (pyStripStr p.action) = "query" ∧
        stripBoth isSpaceChar p.sql ≠ [])
    (hsum : env.summarizer = Except.ok ans)
    (hclose : env.closeError = none) :
    ∃ steps2 : List QueryStep,
      (runAgent env conn0 max_steps).result
        = Except.ok ⟨steps2, pyStripStr ans⟩ ∧
      steps2.length = max_steps ∧
      (runAgent env conn0 max_steps).plannerCalls = max_steps ∧
      (runAgent env conn0 max_steps).summarizerCalls = 1 ∧
      (runAgent env conn0 max_steps).execCalls = max_steps := by
  obtain ⟨steps2, conn2, hrun, hlen⟩ :=
    runLoop_all_query env hq max_steps 0 conn0 [] 0
  have hB : runBody env conn0 max_steps
      = ⟨Except.ok ⟨steps2, pyStripStr ans⟩, conn2, 0 + max_steps, 1, 0 + max_steps⟩ := by
    simp only [runBody, hrun, hsum]
  refine ⟨steps2, ?_, by simpa using hlen, ?_, ?_, ?_⟩
  · simp only [runAgent, hB, hclose]
  · simp only [runAgent, hB]
    omega
  · simp only [runAgent, hB]
  · simp only [runAgent, hB]
    omega

/-- A run environment whose oracle always answers with the same query. -/
def c4Env : RunEnv :=
  { planner := fun _ => Except.ok ⟨"query", "r", "select 1".data, ""⟩,
    summarizer := Except.ok "done",
    execEnvs := fun _ => ⟨[], 1, BackendRes.rows [[PyVal.vInt 1]]⟩,
    startTimes := fun _ => 0,
    msx_ms := 1000,
    closeError := none }

/-- Witness for C4: two rounds with an always-query oracle yield a
two-step transcript, two planner calls, one summarization call, two
executions, and the summarizer's answer. -/
theorem c4_round_bound_witness :
    ∃ steps2 : List QueryStep,
      (runAgent c4Env ⟨none, true⟩ 2).result
        = Except.ok ⟨steps2, pyStripStr "done"⟩ ∧
      steps2.length = 2 ∧
      (runAgent c4Env ⟨none, true⟩ 2).plannerCalls = 2 ∧
      (runAgent c4Env ⟨none, true⟩ 2).summarizerCalls = 1 ∧
      (runAgent c4Env ⟨none, true⟩ 2).execCalls = 2 :=
  c4_round_bound c4Env ⟨none, true⟩ 2 "done"
    (fun _ => ⟨⟨"query", "r", "select 1".data, ""⟩, rfl, by decide, by decide⟩)
    rfl rfl

end DBAgent

namespace DBAgent

/-! ## Result canonicalizer and comparator

`_canonicalize_rows` renders each row through Python repr of the tuple of
its values (a bare scalar as a one-element tuple) and sorts the strings;
it is a total function by construction.  The repr model covers the scalar
fragment the repository stores: integers, plain strings and None. -/

/-- Model of Python repr on scalar values (plain strings, without
escape-needing characters). -/
def reprVal : PyVal → String
  | PyVal.vInt i => toString i
  | PyVal.vStr s => String.mk ('\'' :: (s.data ++ ['\'']))
  | PyVal.vNone => "None"

/-- Comma-space joining, as inside Python tuple repr. -/
def commaJoin : List String → String
  | [] => ""
  | [s] => s
  | s :: rest => s ++ ", " ++ commaJoin rest

/-- Python repr of a tuple of scalars: parentheses, comma-space
separators, and the trailing comma of a one-element tuple. -/
def reprTuple (vs : List PyVal) : String :=
  "(" ++ commaJoin (vs.map reprVal) ++ (if vs.length = 1 then ",)" else ")")

/-- One row's canonical string: a list or tuple row through tuple(r), a
bare scalar as a one-element tuple. -/
def canonRow : PyObj → String
  | PyObj.vList xs => reprTuple xs
  | PyObj.vTuple xs => reprTuple xs
  | PyObj.scalar v => reprTuple [v]

/-- Embedding of `_canonicalize_rows`: the sorted list of per-row
canonical strings. -/
def _canonicalize_rows (rows : List PyObj) : List String :=
  List.mergeSort (rows.map canonRow)

/-- Embedding of `compare_results`: canonical comparison when order
insensitive, raw sequence comparison otherwise. -/
def compare_results (pred_rows gold_rows : List PyObj)
    (order_insensitive : Bool) : Bool :=
  if order_insensitive then
    _canonicalize_rows pred_rows = _canonicalize_rows gold_rows
  else
    pred_rows = gold_rows

/-- Canonicalization is permutation invariant: sorting makes any two
permutations of the same rows canonically equal. -/
theorem canonicalize_perm {R P : List PyObj} (h : R.Perm P) :
    _canonicalize_rows R = _canonicalize_rows P := by
  unfold _canonicalize_rows
  refine List.eq_of_perm_of_sorted ?_
    (List.sorted_mergeSort' _) (List.sorted_mergeSort' _)
  exact ((List.mergeSort_perm _ _).trans (h.map canonRow)).trans
    (List.mergeSort_perm _ _).symm

/-- The first of two rows swapped between the example row lists. -/
def c6R : List PyObj := [PyObj.vTuple [PyVal.vInt 1], PyObj.vTuple [PyVal.vInt 2]]

/-- The second example row list, a transposition of the first. -/
def c6P : List PyObj := [PyObj.vTuple [PyVal.vInt 2], PyObj.vTuple [PyVal.vInt 1]]

/-- C6: row canonicalization is total and order independent: any
permutation of a row list compares equal under order-insensitive mode;
two row lists compare equal under order-insensitive mode exactly when the
sorted sequences of their per-row string representations agree; and in
order-sensitive mode a permuted pair of distinct rows compares false. -/
theorem c6_comparator (R P : List PyObj) (h : R.Perm P) :
    compare_results R P true = true ∧
    (∀ A B : List PyObj, compare_results A B true = true ↔
      _canonicalize_rows A = _canonicalize_rows B) ∧
    compare_results c6R c6P false = false ∧ c6R.Perm c6P := by
  refine ⟨?_, ?_, by decide, by decide⟩
  · simp [compare_results, canonicalize_perm h]
  · intro A B
    simp [compare_results]

/-- Witness for C6: the equivalence applied to the concrete transposed
row lists. -/
theorem c6_comparator_witness :
    compare_results c6R c6P true = true ∧ c6R.Perm c6P :=
  ⟨(c6_comparator c6R c6P (by decide)).1, by decide⟩

end DBAgent

namespace DBAgent

/-! ## Experiment runner: the per-turn verdict of `run_experiment` -/

/-- One evaluation turn: the target database locator and the optional
reference SQL. -/
structure Turn where
  db_file : List Char
  gold_sql : Option (List Char)

/-- The reference SQL text passed to the reference execution. -/
def goldSqlOf (t : Turn) : List Char :=
  match t.gold_sql with
  | some g => g
  | none => []

/-- The turn has a usable reference: a truthy database locator and a
reference SQL that is present and not blank. -/
def hasRef (t : Turn) : Bool :=
  t.db_file ≠ [] &&
    (match t.gold_sql with
     | some g => stripBoth isSpaceChar g ≠ []
     | none => false)

/-- The verdict record of one turn together with its contribution to the
running aggregates. -/
structure TurnEval where
  results_match : Option Bool
  comparableInc : Nat
  matchInc : Nat
  gold_exec : Option Outcome
  deriving DecidableEq

/-- The comparison section of the `run_experiment` loop body: the
prediction is the last step of the transcript (none when the transcript
is empty); when the turn has a reference, the reference SQL is executed
through the same guarded engine and the comparable counter is bumped;
a verdict is computed when a predicted execution exists — the comparison
when both sides succeeded, false otherwise — and stays not-computed when
the transcript was empty. -/
def evalTurn (t : Turn) (ar : AgentResult) (order_insensitive : Bool)
    (msx_ms : ℤ) (goldConn : Conn) (goldStart : ℚ) (goldEnv : ExecEnv) :
    TurnEval :=
  let pred_exec : Option SQLExecution := ar.steps.getLast?.map QueryStep.execution
  let pred_rows : List PyObj :=
    match ar.steps.getLast? with
    | some s => s.execution.results
    | none => []
  if hasRef t then
    let gold_exec := (safe_query goldConn (goldSqlOf t) msx_ms goldStart goldEnv).1
    let results_match : Option Bool :=
      match pred_exec with
      | some pe =>
          if pe.success && gold_exec.success then
            some (compare_results pred_rows gold_exec.results order_insensitive)
          else some false
      | none => none
    { results_match := results_match,
      comparableInc := 1,
      matchInc := if results_match = some true then 1 else 0,
      gold_exec := some gold_exec }
  else
    { results_match := none, comparableInc := 0, matchInc := 0, gold_exec := none }

/-- The running aggregates over a list of turn evaluations: total matches
and total comparable turns. -/
def aggregateCounts (evals : List TurnEval) : Nat × Nat :=
  (evals.foldl (fun acc e => acc + e.matchInc) 0,
   evals.foldl (fun acc e => acc + e.comparableInc) 0)

/-- The accuracy metric: matches over comparable, or none when no turn
was comparable. -/
def accuracy (evals : List TurnEval) : Option ℚ :=
  if (aggregateCounts evals).2 = 0 then none
  else some (((aggregateCounts evals).1 : ℚ) / ((aggregateCounts evals).2 : ℚ))

end DBAgent

namespace DBAgent

/-- C5 (amended): a boolean verdict is computed exactly when a reference
exists, the transcript is non-empty, and both the predicted and the
reference executions succeeded; with a reference and a non-empty
transcript but either side unsuccessful the verdict is recorded as false
and the turn counts as comparable; with a reference but an empty
transcript (no predicted execution exists) the verdict stays
not-comparable although the turn still counts as comparable; without a
reference the verdict is not-comparable and the turn contributes nothing
to either aggregate; and accuracy is matches over comparable. -/
theorem c5_runner_verdicts (t : Turn) (ar : AgentResult) (oi : Bool)
    (msx_ms : ℤ) (gc : Conn) (gs : ℚ) (ge : ExecEnv) :
    (∀ s, ar.steps.getLast? = some s → hasRef t = true →
      s.execution.success = true →
      (safe_query gc (goldSqlOf t) msx_ms gs ge).1.success = true →
      (evalTurn t ar oi msx_ms gc gs ge).results_match
        = some (compare_results s.execution.results
            (safe_query gc (goldSqlOf t) msx_ms gs ge).1.results oi) ∧
      (evalTurn t ar oi msx_ms gc gs ge).comparableInc = 1) ∧
    (∀ s, ar.steps.getLast? = some s → hasRef t = true →
      ¬(s.execution.success = true ∧
        (safe_query gc (goldSqlOf t) msx_ms gs ge).1.success = true) →
      (evalTurn t ar oi msx_ms gc gs ge).results_match = some false ∧
      (evalTurn t ar oi msx_ms gc gs ge).comparableInc = 1) ∧
    (ar.steps.getLast? = none → hasRef t = true →
      (evalTurn t ar oi msx_ms gc gs ge).results_match = none ∧
      (evalTurn t ar oi msx_ms gc gs ge).comparableInc = 1) ∧
    (hasRef t = false →
      (evalTurn t ar oi msx_ms gc gs ge).results_match = none ∧
      (evalTurn t ar oi msx_ms gc gs ge).comparableInc = 0 ∧
      (evalTurn t ar oi msx_ms gc gs ge).matchInc = 0) ∧
    (∀ evals : List TurnEval, (aggregateCounts evals).2 ≠ 0 →
      accuracy evals
        = some (((aggregateCounts evals).1 : ℚ) / ((aggregateCounts evals).2 : ℚ))) ∧
    (∀ (e : TurnEval) (evals : List TurnEval),
      e.comparableInc = 0 → e.matchInc = 0 →
      aggregateCounts (e :: evals) = aggregateCounts evals) := by
  refine ⟨?_, ?_, ?_, ?_, ?_, ?_⟩
  · intro s hlast href hsuc hgold
    constructor <;> simp [evalTurn, hlast, href, hsuc, hgold]
  · intro s hlast href hn
    have hb : (s.execution.success
        && (safe_query gc (goldSqlOf t) msx_ms gs ge).1.success) = false := by
      cases hs : s.execution.success with
      | false => rfl
      | true =>
        cases hg : (safe_query gc (goldSqlOf t) msx_ms gs ge).1.success with
        | false => rfl
        | true => exact absurd ⟨hs, hg⟩ hn
    constructor <;> simp [evalTurn, hlast, href, hb]
  · intro hlast href
    constructor <;> simp [evalTurn, hlast, href]
  · intro hfalse
    refine ⟨?_, ?_, ?_⟩ <;> simp [evalTurn, hfalse]
  · intro evals hne
    simp [accuracy, hne]
  · intro e evals hc hm
    simp [aggregateCounts, List.foldl_cons, hc, hm]

/-- A turn carrying a reference SQL. -/
def c5Turn : Turn := ⟨"db".data, some "select 1".data⟩

/-- A transcript with no steps. -/
def c5EmptyAR : AgentResult := ⟨[], "no steps"⟩

/-- The reference execution environment: completes at once with one
row. -/
def c5GoldEnv : ExecEnv := ⟨[], 1, BackendRes.rows [[PyVal.vInt 1]]⟩

/-- C5 counterexample: on a turn whose reference exists but whose
transcript has no steps (so no predicted execution exists and the
predicted side lacks a successful execution), the verdict is left
not-comparable — not recorded as false as the claim states — while the
turn still counts in the comparable total. -/
theorem c5_claim_counterexample :
    (evalTurn c5Turn c5EmptyAR true 1000 ⟨none, true⟩ 0 c5GoldEnv).results_match
      = none ∧
    (evalTurn c5Turn c5EmptyAR true 1000 ⟨none, true⟩ 0 c5GoldEnv).comparableInc
      = 1 ∧
    (evalTurn c5Turn c5EmptyAR true 1000 ⟨none, true⟩ 0 c5GoldEnv).results_match
      ≠ some false := by
  refine ⟨by decide, by decide, by decide⟩

/-- A one-step transcript whose execution succeeded. -/
def c5Step : QueryStep :=
  ⟨"r", "select 1".data,
    ⟨true, true, "success", 1000, [PyObj.vList [PyVal.vInt 1]], none⟩⟩

/-- A transcript holding the one successful step. -/
def c5AR : AgentResult := ⟨[c5Step], "a"⟩

/-- Witness for C5: with a reference and a successful predicted and
reference execution, the verdict is the comparison and the turn is
comparable. -/
theorem c5_runner_verdicts_witness :
    (evalTurn c5Turn c5AR true 1000 ⟨none, true⟩ 0 c5GoldEnv).results_match
      = some (compare_results c5Step.execution.results
          (safe_query ⟨none, true⟩ (goldSqlOf c5Turn) 1000 0 c5GoldEnv).1.results
          true) ∧
    (evalTurn c5Turn c5AR true 1000 ⟨none, true⟩ 0 c5GoldEnv).comparableInc = 1 :=
  (c5_runner_verdicts c5Turn c5AR true 1000 ⟨none, true⟩ 0 c5GoldEnv).1 c5Step
    (by decide) (by decide) (by decide) (by decide)

end DBAgent

namespace DBAgent

/-! ## The order-sensitive comparison across the pipeline -/

/-- Normalized results never contain a tuple row: every tuple was turned
into a list. -/
theorem normalize_no_tuple (rs : List PyObj) :
    ∀ r ∈ _normalize_results rs, ∀ xs, r ≠ PyObj.vTuple xs := by
  intro r hr xs
  obtain ⟨a, ha, rfl⟩ := List.mem_map.mp hr
  cases a <;> simp

/-- A successful `safe_query` fetched its rows from the backend, and
sqlite rows are tuples. -/
theorem safe_query_success_rows (conn : Conn) (sql : List Char) (msx_ms : ℤ)
    (start : ℚ) (env : ExecEnv)
    (h : (safe_query conn sql msx_ms start env).1.success = true) :
    ∃ rs : List (List PyVal), (safe_query conn sql msx_ms start env).1.results
      = rs.map PyObj.vTuple := by
  by_cases hro : _is_read_only sql = false
  · exfalso
    have hfalse : (safe_query conn sql msx_ms start env).1.success = false := by
      unfold safe_query
      rw [if_pos hro]
    rw [hfalse] at h
    exact Bool.noConfusion h
  · cases h1 : firstAbort
        (if 0 < msx_ms then some (start + (msx_ms : ℚ) / 1000) else none)
        env.checkTimes with
    | some ta =>
      exfalso
      have hfalse : (safe_query conn sql msx_ms start env).1.success = false := by
        unfold safe_query
        rw [if_neg hro]
        dsimp only
        simp only [h1]
      rw [hfalse] at h
      exact Bool.noConfusion h
    | none =>
      cases h2 : env.backendRes with
      | rows rs =>
        refine ⟨rs, ?_⟩
        unfold safe_query
        rw [if_neg hro]
        dsimp only
        simp only [h1, h2]
      | failure m =>
        exfalso
        have hfalse : (safe_query conn sql msx_ms start env).1.success = false := by
          unfold safe_query
          rw [if_neg hro]
          dsimp only
          simp only [h1, h2]
        rw [hfalse] at h
        exact Bool.noConfusion h

set_option maxHeartbeats 1000000 in
/-- Steps accumulated by the loop keep the invariant that no stored
result row is a tuple, because every appended step stores normalized
results. -/
theorem runLoop_steps_normalized (env : RunEnv) : ∀ (n i : Nat) (conn : Conn)
    (steps : List QueryStep) (execs : Nat),
    (∀ s ∈ steps, ∀ r ∈ s.execution.results, ∀ xs, r ≠ PyObj.vTuple xs) →
    ∀ fsteps fans,
      (runLoop env n i conn steps execs).res = Except.ok (fsteps, fans) →
      ∀ s ∈ fsteps, ∀ r ∈ s.execution.results, ∀ xs, r ≠ PyObj.vTuple xs := by
  intro n
  induction n with
  | zero =>
    intro i conn steps execs hinv fsteps fans h
    have h1 : steps = fsteps := congrArg Prod.fst (Except.ok.inj h)
    subst h1
    exact hinv
  | succ m ih =>
    intro i conn steps execs hinv fsteps fans h
    rw [runLoop] at h
    cases hp : env.planner i with
    | error e =>
      rw [hp] at h
      exact Except.noConfusion h
    | ok p =>
      rw [hp] at h
      dsimp only at h
      by_cases hf : pyLowerStr (pyStripStr p.action) = "final"
      · rw [if_pos hf] at h
        have h1 : steps = fsteps := congrArg Prod.fst (Except.ok.inj h)
        subst h1
        exact hinv
      · rw [if_neg hf] at h
        by_cases hq : pyLowerStr (pyStripStr p.action) ≠ "query"
        · rw [if_pos hq] at h
          have h1 : steps = fsteps := congrArg Prod.fst (Except.ok.inj h)
          subst h1
          exact hinv
        · rw [if_neg hq] at h
          by_cases hsq : stripBoth isSpaceChar p.sql = []
          · rw [if_pos hsq] at h
            have h1 : steps = fsteps := congrArg Prod.fst (Except.ok.inj h)
            subst h1
            exact hinv
          · rw [if_neg hsq] at h
            refine ih (i + 1) (safe_query conn (stripBoth isSpaceChar p.sql) env.msx_ms (env.startTimes i) (env.execEnvs i)).2
              (steps ++ [⟨p.reasoning, stripBoth isSpaceChar p.sql,
                { executed := true,
                  success := (safe_query conn (stripBoth isSpaceChar p.sql) env.msx_ms (env.startTimes i) (env.execEnvs i)).1.success,
                  status := (safe_query conn (stripBoth isSpaceChar p.sql) env.msx_ms (env.startTimes i) (env.execEnvs i)).1.status,
                  elapsed_ms := (safe_query conn (stripBoth isSpaceChar p.sql) env.msx_ms (env.startTimes i) (env.execEnvs i)).1.elapsed_ms,
                  results := _normalize_results ((safe_query conn (stripBoth isSpaceChar p.sql) env.msx_ms (env.startTimes i) (env.execEnvs i)).1.results),
                  error := (safe_query conn (stripBoth isSpaceChar p.sql) env.msx_ms (env.startTimes i) (env.execEnvs i)).1.error }⟩])
              (execs + 1) ?_ fsteps fans h
            intro s hs
            rcases List.mem_append.mp hs with hs1 | hs2
            · exact hinv s hs1
            · rw [List.mem_singleton] at hs2
              subst hs2
              dsimp only
              exact normalize_no_tuple ((safe_query conn (stripBoth isSpaceChar p.sql) env.msx_ms (env.startTimes i) (env.execEnvs i)).1.results)

/-- Every step of a transcript returned by a run stores normalized
results, so none of its result rows is a tuple. -/
theorem runAgent_steps_normalized (env : RunEnv) (conn0 : Conn) (n : Nat)
    (ar : AgentResult) (h : (runAgent env conn0 n).result = Except.ok ar) :
    ∀ s ∈ ar.steps, ∀ r ∈ s.execution.results, ∀ xs, r ≠ PyObj.vTuple xs := by
  have hbody : (runBody env conn0 n).res = Except.ok ar := by
    cases hb : (runBody env conn0 n).res with
    | error e =>
      simp only [runAgent, hb] at h
      exact Except.noConfusion h
    | ok r =>
      cases hc : env.closeError with
      | some ce =>
        simp only [runAgent, hb, hc] at h
        exact Except.noConfusion h
      | none =>
        simp only [runAgent, hb, hc] at h
        exact h
  cases hL : (runLoop env n 0 conn0 [] 0).res with
  | error e =>
    simp only [runBody, hL] at hbody
    exact Except.noConfusion hbody
  | ok pr =>
    obtain ⟨steps, fans⟩ := pr
    cases fans with
    | some ans =>
      simp only [runBody, hL] at hbody
      rw [← Except.ok.inj hbody]
      exact runLoop_steps_normalized env n 0 conn0 [] 0 (by simp) steps
        (some ans) hL
    | none =>
      cases hsum : env.summarizer with
      | error e =>
        simp only [runBody, hL, hsum] at hbody
        exact Except.noConfusion hbody
      | ok a =>
        simp only [runBody, hL, hsum] at hbody
        rw [← Except.ok.inj hbody]
        exact runLoop_steps_normalized env n 0 conn0 [] 0 (by simp) steps
          none hL

/-- One turn of the runner pipeline: run the agent, abort the turn when a
hard failure propagates, else evaluate the verdict section. -/
def runExperimentTurn (t : Turn) (env : RunEnv) (conn0 : Conn)
    (max_steps : Nat) (order_insensitive : Bool) (goldConn : Conn)
    (goldStart : ℚ) (goldEnv : ExecEnv) : Option TurnEval :=
  match (runAgent env conn0 max_steps).result with
  | Except.error _ => none
  | Except.ok ar =>
      some (evalTurn t ar order_insensitive env.msx_ms goldConn goldStart goldEnv)

end DBAgent

namespace DBAgent

/-- C7 (implicit): under order-sensitive comparison the runner can never
record a match on a turn whose reference execution yields at least one
row, even for identical data: the controller normalizes every predicted
row from a tuple to a list, the reference rows stay tuples as fetched,
and the raw sequence comparison never equates a list with a tuple, so
results_match is false. -/
theorem c7_order_sensitive_never_matches (t : Turn) (env : RunEnv)
    (conn0 : Conn) (n : Nat) (ar : AgentResult) (s : QueryStep)
    (gc : Conn) (gs : ℚ) (ge : ExecEnv)
    (hres : (runAgent env conn0 n).result = Except.ok ar)
    (hlast : ar.steps.getLast? = some s)
    (hsuc : s.execution.success = true)
    (href : hasRef t = true)
    (hgold : (safe_query gc (goldSqlOf t) env.msx_ms gs ge).1.success = true)
    (hrows : (safe_query gc (goldSqlOf t) env.msx_ms gs ge).1.results ≠ []) :
    (evalTurn t ar false env.msx_ms gc gs ge).results_match = some false ∧
    runExperimentTurn t env conn0 n false gc gs ge
      = some (evalTurn t ar false env.msx_ms gc gs ge) := by
  have hnt : ∀ r ∈ s.execution.results, ∀ xs, r ≠ PyObj.vTuple xs :=
    runAgent_steps_normalized env conn0 n ar hres s
      (List.mem_of_getLast?_eq_some hlast)
  obtain ⟨rs, hrs⟩ :=
    safe_query_success_rows gc (goldSqlOf t) env.msx_ms gs ge hgold
  have hne : ¬ (s.execution.results
      = (safe_query gc (goldSqlOf t) env.msx_ms gs ge).1.results) := by
    intro he
    rw [hrs] at he hrows
    cases rs with
    | nil => exact hrows rfl
    | cons r0 rtl =>
      have hmem : PyObj.vTuple r0 ∈ s.execution.results := by
        rw [he]; simp
      exact hnt _ hmem r0 rfl
  have hcmp : compare_results s.execution.results
      (safe_query gc (goldSqlOf t) env.msx_ms gs ge).1.results false = false := by
    simp only [compare_results, Bool.false_eq_true, if_false]
    exact decide_eq_false hne
  constructor
  · simp [evalTurn, hlast, href, hsuc, hgold, hcmp]
  · simp [runExperimentTurn, hres]

/-- A turn for the pipeline witness, carrying a reference SQL. -/
def c7Turn : Turn := ⟨"db".data, some "select 1".data⟩

/-- A run environment whose single round queries and succeeds with one
row. -/
def c7Env : RunEnv :=
  { planner := fun _ => Except.ok ⟨"query", "r", "select 1".data, ""⟩,
    summarizer := Except.ok "ans",
    execEnvs := fun _ => ⟨[], 1, BackendRes.rows [[PyVal.vInt 1]]⟩,
    startTimes := fun _ => 0,
    msx_ms := 1000,
    closeError := none }

/-- The reference execution environment of the pipeline witness: succeeds
with the same single row the agent fetched. -/
def c7GoldEnv : ExecEnv := ⟨[], 1, BackendRes.rows [[PyVal.vInt 1]]⟩

/-- The transcript the witness run returns. -/
def c7AR : AgentResult :=
  match (runAgent c7Env ⟨none, true⟩ 1).result with
  | Except.ok ar => ar
  | Except.error _ => ⟨[], ""⟩

/-- The single step of the witness transcript. -/
def c7Step : QueryStep :=
  match c7AR.steps.getLast? with
  | some s => s
  | none => ⟨"", [], ⟨false, false, "", 0, [], none⟩⟩

/-- Witness for C7: a concrete turn whose predicted and reference data
are identical still compares false under order-sensitive mode. -/
theorem c7_order_sensitive_never_matches_witness :
    (runAgent c7Env ⟨none, true⟩ 1).result = Except.ok c7AR ∧
    c7AR.steps.getLast? = some c7Step ∧
    (evalTurn c7Turn c7AR false c7Env.msx_ms ⟨none, true⟩ 0 c7GoldEnv).results_match
      = some false :=
  ⟨rfl, rfl,
    (c7_order_sensitive_never_matches c7Turn c7Env ⟨none, true⟩ 1 c7AR c7Step
      ⟨none, true⟩ 0 c7GoldEnv rfl rfl (by decide) (by decide) (by decide)
      (by decide)).1⟩

end DBAgent
